import Mathlib

/-!
Verification of the prompt variation-and-scoring pipeline of `server.js`
(Prompt Engineering Toolkit).

Strings are embedded as `List Char` (`Str`).  JavaScript numbers are embedded
exactly.  Most evaluator expressions only ever hold integers or half/quarter
integers of magnitude at most a few hundred plus a string length: IEEE
binary64 represents these exactly (lengths are below 2^32, doubles are exact
up to 2^53, and dividing an exact integer by 2 or 4 stays exact), so those
expressions are modelled with exact `Int` arithmetic and `Math.round` as
round-half-up `⌊x + 1/2⌋`, JavaScript's convention.  The one evaluator
expression that does round in binary64 — `(found/total) * 100`, where the
division and the multiplication each round to nearest-even — is modelled
bit-faithfully by `rne` (IEEE round-to-nearest, ties-to-even over ℚ) and
`jsPct`; e.g. `jsPct 23 40 = 57` where exact rational rounding would give 58,
matching `Math.round((23/40)*100)` in JavaScript.

The regular expressions used by the source are all of the restricted shape
`\b<literal>\b` with the `i` flag (the literal being either an escaped user
string or a fixed vocabulary word without metacharacters), plus the
word-bounded global replaces in `paraphrasePrompt`.  They are embedded by an
explicit word-boundary matcher over `List Char`; `\w` is `[A-Za-z0-9_]` and
the `i` flag is ASCII lower-casing, exactly JavaScript's non-unicode regex
semantics on ASCII input.
-/

abbrev Str := List Char

def str (s : String) : Str := s.data

-- JavaScript `\w` word characters: [A-Za-z0-9_].
def isWordChar (c : Char) : Bool := c.isAlpha || c.isDigit || c == '_'

def isWordOpt : Option Char → Bool
  | none => false
  | some c => isWordChar c

def lowerStr (s : Str) : Str := s.map Char.toLower

-- ----------------- escapeRegExp (server.js lines 69-71) -----------------
-- function escapeRegExp(string) \x7b return string.replace(/[.*+?^$\x7b\x7d()|[\]\\]/g, '\\$&'); \x7d

def isMeta (c : Char) : Bool :=
  ['.', '*', '+', '?', '^', '$', '\x7b', '\x7d', '(', ')', '|', '[', ']', '\\'].contains c

def escapeRegExp (s : Str) : Str :=
  s.flatMap (fun c => if isMeta c then ['\\', c] else [c])

-- A token of the literal fragment of regular-expression patterns: either a
-- literal character or an (unescaped) metacharacter.
inductive RTok where
  | lit : Char → RTok
  | metaC : Char → RTok
deriving DecidableEq, Repr

-- Reads a pattern string into tokens: `\c` denotes the literal character c,
-- a bare metacharacter is an operator token, anything else is a literal.
def parsePattern : Str → Option (List RTok)
  | [] => some []
  | ['\\'] => none
  | '\\' :: d :: rest2 => (parsePattern rest2).map (fun ts => RTok.lit d :: ts)
  | c :: rest =>
    (parsePattern rest).map (fun ts => (if isMeta c then RTok.metaC c else RTok.lit c) :: ts)

-- The literal string denoted by an all-literal token list (none otherwise).
def litOf : List RTok → Option Str
  | [] => some []
  | RTok.lit c :: ts => (litOf ts).map (fun l => c :: l)
  | RTok.metaC _ :: _ => none

-- Matching an all-literal token list at the head of a text (case-sensitive,
-- as for a pattern used without the `i` flag).
def litMatchAt : List RTok → Str → Bool
  | [], _ => true
  | RTok.lit c :: ts, d :: ds => c == d && litMatchAt ts ds
  | _, _ => false

-- ----------------- word-boundary matching, `\b<lit>\b` with flag i -----------------

def wordAt (s : Str) (j : Nat) : Bool := isWordOpt s[j]?

def prevW (s : Str) : Nat → Bool
  | 0 => false
  | j + 1 => wordAt s j

-- `\b` holds at position j iff word-ness changes between s[j-1] and s[j]
-- (positions outside the string count as non-word).
def boundaryAt (s : Str) (j : Nat) : Bool := prevW s j != wordAt s j

def matchCIAt (s : Str) (i : Nat) (t : Str) : Bool :=
  lowerStr (List.take t.length (List.drop i s)) == lowerStr t

-- `new RegExp('\\b' + t + '\\b', 'i').test(s)` for a literal t.
def testWordCI (t s : Str) : Bool :=
  (List.range (s.length + 1)).any
    (fun i => boundaryAt s i && matchCIAt s i t && boundaryAt s (i + t.length))

-- `new RegExp('\\b' + pat + '\\b', 'i').test(s)` for a pattern string pat
-- drawn from the literal fragment (all the patterns the source builds).
def regexTestWW (pat : Str) (s : Str) : Bool :=
  match (parsePattern pat).bind litOf with
  | some t => testWordCI t s
  | none => false

-- Declarative counterpart of `testWordCI`: some case-insensitive occurrence
-- of t in s is bounded by word boundaries on both sides.
def WWOccur (t s : Str) : Prop :=
  ∃ a m b, s = a ++ m ++ b ∧ lowerStr m = lowerStr t ∧
    isWordOpt a.getLast? ≠ isWordOpt (m ++ b).head? ∧
    isWordOpt (a ++ m).getLast? ≠ isWordOpt b.head?

-- ----------------- template transformers (server.js lines 17-45) -----------------

def addSystemRole (prompt role : Str) : Str :=
  str "System: " ++ role ++ str "\nUser: " ++ prompt

structure Example where
  input : Str
  output : Str
deriving DecidableEq, Repr

def addFewShot (prompt : Str) (examples : List Example) : Str :=
  if examples.length = 0 then prompt
  else
    let fewShot := List.intercalate (str "\n\n")
      (examples.enum.map (fun ie =>
        str "Example " ++ str (toString (ie.1 + 1)) ++ str ":\nInput: "
          ++ ie.2.input ++ str "\nOutput: " ++ ie.2.output))
    fewShot ++ str "\n\nNow, given the user input, respond concisely.\nUser: " ++ prompt

def tightenInstructions (prompt : Str) (constraints : List Str) : Str :=
  let c := if constraints.length = 0 then []
           else List.intercalate (str "; ") constraints ++ str "; "
  str "Instruction: " ++ c ++ str "Be concise and precise.\nUser: " ++ prompt

-- One step of `s.replace(/\b<t>\b/ig, repl)`: does the regex match at the
-- start of rem, where prev is the character just before rem inside the
-- whole subject string?
def wordMatchHere (t : Str) (prev : Option Char) (rem : Str) : Bool :=
  (isWordOpt prev != isWordOpt rem.head?) &&
  (lowerStr (List.take t.length rem) == lowerStr t) &&
  (isWordOpt (List.take t.length rem).getLast? != isWordOpt (List.drop t.length rem).head?)

-- Global regex replace, scanning left to right and resuming after each
-- match, exactly as JavaScript `String.prototype.replace` with the g flag.
-- Fuel is the length of the subject; each step consumes at least one
-- character when t is non-empty, so the fuel never runs out.
def replaceWordCIAux (t repl : Str) : Nat → Option Char → Str → Str
  | 0, _, rem => rem
  | _ + 1, _, [] => []
  | fuel + 1, prev, c :: cs =>
    if wordMatchHere t prev (c :: cs) then
      repl ++ replaceWordCIAux t repl fuel (List.take t.length (c :: cs)).getLast?
        (List.drop t.length (c :: cs))
    else
      c :: replaceWordCIAux t repl fuel (some c) cs

def replaceWordCI (t repl s : Str) : Str :=
  if t.length = 0 then s else replaceWordCIAux t repl s.length none s

-- The character set stripped by JavaScript String.prototype.trim:
-- ECMAScript WhiteSpace (TAB 0x09, VT 0x0B, FF 0x0C, SP 0x20, NBSP 0xA0,
-- ZWNBSP 0xFEFF and the Unicode Zs spaces: 0x1680, 0x2000-0x200A, 0x202F,
-- 0x205F, 0x3000) together with LineTerminator (LF 0x0A, CR 0x0D,
-- LS 0x2028, PS 0x2029).
def isJsWhitespace (c : Char) : Bool :=
  c.toNat = 0x09 || c.toNat = 0x0A || c.toNat = 0x0B || c.toNat = 0x0C ||
  c.toNat = 0x0D || c.toNat = 0x20 || c.toNat = 0xA0 || c.toNat = 0x1680 ||
  (0x2000 ≤ c.toNat && c.toNat ≤ 0x200A) ||
  c.toNat = 0x2028 || c.toNat = 0x2029 || c.toNat = 0x202F ||
  c.toNat = 0x205F || c.toNat = 0x3000 || c.toNat = 0xFEFF

def jsTrim (s : Str) : Str :=
  ((s.dropWhile isJsWhitespace).reverse.dropWhile isJsWhitespace).reverse

def paraphrasePrompt (prompt : Str) : Str :=
  let p1 := jsTrim (replaceWordCI (str "please") [] prompt)
  let p2 := replaceWordCI (str "Create") (str "Generate") p1
  let p3 := replaceWordCI (str "Describe") (str "Summarize") p2
  if 120 < p3.length then List.take 110 p3 ++ str "..." else p3

def injectKeywords (prompt : Str) (keywords : List Str) : Str :=
  if keywords.length = 0 then prompt
  else prompt ++ str "\n\n"
    ++ (str "Keywords to include: " ++ List.intercalate (str ", ") keywords ++ str ".")

-- ----------------- heuristic evaluation (server.js lines 48-67) -----------------

structure TestCase where
  mustInclude : List Str
deriving DecidableEq, Repr

structure Evaluation where
  clarity : Int
  specificity : Int
  keywordCoverage : Int
  testScore : Int
  overall : Int
  foundKeywords : List Str
deriving DecidableEq, Repr

-- JavaScript `Math.round(num / den)` for den > 0, i.e. ⌊num/den + 1/2⌋.
-- Used only where binary64 evaluates num/den exactly: num an exact integer
-- of magnitude at most a few hundred plus a string length (far below 2^53)
-- and den ∈ \x7b2, 4\x7d, so that num/den is a dyadic rational that a double
-- represents exactly and Math.round sees the exact value.
def mathRound (num den : Int) : Int := (2 * num + den).fdiv (2 * den)

-- ⌊log₂ q⌋ for a positive rational q = num/den: with a = ⌊log₂ num⌋ and
-- b = ⌊log₂ den⌋ the answer is a - b or a - b - 1, decided by comparing
-- q against 2^(a-b), i.e. den·2^a against num·2^b.
def qlog2 (q : ℚ) : ℤ :=
  if q.den * 2 ^ Nat.log 2 q.num.toNat ≤ q.num.toNat * 2 ^ Nat.log 2 q.den then
    (Nat.log 2 q.num.toNat : ℤ) - (Nat.log 2 q.den : ℤ)
  else (Nat.log 2 q.num.toNat : ℤ) - (Nat.log 2 q.den : ℤ) - 1

-- Nearest integer to a rational, ties to even.
def rint (r : ℚ) : ℤ :=
  if r - ⌊r⌋ < 1 / 2 then ⌊r⌋
  else if 1 / 2 < r - ⌊r⌋ then ⌊r⌋ + 1
  else if ⌊r⌋ % 2 = 0 then ⌊r⌋ else ⌊r⌋ + 1

-- IEEE-754 binary64 rounding (round to nearest, ties to even) of a
-- positive rational: scale by 2^(52-⌊log₂ q⌋) into the 53-bit mantissa
-- window [2^52, 2^53), round the mantissa to an integer, scale back.  The
-- exponent is unbounded, i.e. no overflow and no subnormals: every value
-- this file rounds lies far inside the binary64 normal range.
def rnePos (q : ℚ) : ℚ :=
  (rint (q * 2 ^ ((52 : ℤ) - qlog2 q)) : ℚ) * 2 ^ (qlog2 q - 52)

def rne (q : ℚ) : ℚ :=
  if 0 < q then rnePos q else if q < 0 then -rnePos (-q) else 0

-- Math.round((f / t) * 100) exactly as JavaScript evaluates it in IEEE
-- binary64: f and t are array lengths, hence exact doubles; `f / t` rounds
-- to nearest-even; the product with 100 rounds to nearest-even again; and
-- Math.round of the resulting double d is the integer ⌊d + 1/2⌋ of its
-- exact value.  E.g. jsPct 23 40 = 57 (the product step yields
-- 57.49999999999999), where exact rational rounding would give 58.
def jsPct (f t : Nat) : Int := ⌊rne (rne ((f : ℚ) / (t : ℚ)) * 100) + 1 / 2⌋

-- Math.max(10, Math.min(100, Math.round(100 - Math.abs(120 - length) * 0.5)));
-- 100 - d * 0.5 is the exact rational (200 - d)/2.
def clarityScore (len : Nat) : Int :=
  max 10 (min 100 (mathRound (200 - |120 - (len : Int)|) 2))

def specificityWords : List Str :=
  [str "exact", str "concise", str "step-by-step", str "numbered",
   str "limit", str "only", str "format", str "json"]

-- specificityCount * 25 + 20, capped at 100; each vocabulary word is tested
-- with new RegExp('\\b' + w + '\\b', 'i') (no escaping; the words contain no
-- metacharacters).
def specificityScore (prompt : Str) : Int :=
  min 100 ((List.countP (fun w => regexTestWW w prompt) specificityWords : Int) * 25 + 20)

-- keywords.filter(k => new RegExp('\\b' + escapeRegExp(k) + '\\b','i').test(prompt))
def foundKeywordsOf (prompt : Str) (keywords : List Str) : List Str :=
  keywords.filter (fun k => regexTestWW (escapeRegExp k) prompt)

-- keywords.length ? Math.round((foundKeywords.length / keywords.length) * 100) : 0
def keywordCoverageScore (prompt : Str) (keywords : List Str) : Int :=
  if keywords.length = 0 then 0
  else jsPct (foundKeywordsOf prompt keywords).length keywords.length

def testCasePasses (prompt : Str) (tc : TestCase) : Bool :=
  tc.mustInclude.all (fun r => regexTestWW (escapeRegExp r) prompt)

-- testScore = 0 unless testCases is non-empty, then Math.round((pass/total)*100)
def testScoreOf (prompt : Str) (testCases : List TestCase) : Int :=
  if testCases.length = 0 then 0
  else jsPct (List.countP (testCasePasses prompt) testCases) testCases.length

def evaluatePrompt (prompt : Str) (keywords : List Str) (testCases : List TestCase) :
    Evaluation :=
  let clarity := clarityScore prompt.length
  let specificity := specificityScore prompt
  let keywordCoverage := keywordCoverageScore prompt keywords
  let testScore := testScoreOf prompt testCases
  ⟨clarity, specificity, keywordCoverage, testScore,
    mathRound (clarity + specificity + keywordCoverage + testScore) 4,
    foundKeywordsOf prompt keywords⟩

-- ----------------- API endpoints (server.js lines 74-123) -----------------

def expertRole : Str := str "You are an expert assistant with deep domain knowledge."

structure Variant where
  id : Str
  vtype : Str
  prompt : Str
  evaluation : Evaluation
deriving DecidableEq, Repr

-- POST /api/generate-variations.  freshId stands in for the uuidv4 calls (an
-- external identifier source); a `none` basePrompt models an absent field.
-- JavaScript's `!basePrompt` is true exactly for an absent or empty string.
def generateVariations (freshId : Nat → Str) (basePrompt : Option Str)
    (keywords : List Str) (examples : List Example) (constraints : List Str) :
    Except Str (List Variant) :=
  let bp := basePrompt.getD []
  if bp.length = 0 then Except.error (str "basePrompt required")
  else
    Except.ok
      [⟨freshId 0, str "system-role:expert", addSystemRole bp expertRole,
          evaluatePrompt (addSystemRole bp expertRole) keywords []⟩,
       ⟨freshId 1, str "few-shot", addFewShot bp examples,
          evaluatePrompt (addFewShot bp examples) keywords []⟩,
       ⟨freshId 2, str "tight-constraints", tightenInstructions bp constraints,
          evaluatePrompt (tightenInstructions bp constraints) keywords []⟩,
       ⟨freshId 3, str "paraphrase", paraphrasePrompt bp,
          evaluatePrompt (paraphrasePrompt bp) keywords []⟩,
       ⟨freshId 4, str "keyword-injection", injectKeywords bp keywords,
          evaluatePrompt (injectKeywords bp keywords) keywords []⟩]

-- POST /api/evaluate; `!prompt` again rejects an absent or empty prompt.
def evaluateEndpoint (prompt : Option Str) (keywords : List Str)
    (testCases : List TestCase) : Except Str (Str × Evaluation) :=
  let p := prompt.getD []
  if p.length = 0 then Except.error (str "prompt required")
  else Except.ok (p, evaluatePrompt p keywords testCases)

-- ----------------- helper lemmas -----------------

theorem litOf_map_lit (s : Str) : litOf (s.map RTok.lit) = some s := by
  induction s with
  | nil => rfl
  | cons c cs ih => simp [litOf, ih]

theorem parsePattern_escape (s : Str) :
    parsePattern (escapeRegExp s) = some (s.map RTok.lit) := by
  induction s with
  | nil => rfl
  | cons c cs ih =>
    have key : escapeRegExp (c :: cs)
        = (if isMeta c then ['\\', c] else [c]) ++ escapeRegExp cs := by
      simp [escapeRegExp]
    by_cases h : isMeta c = true
    · rw [key]
      simp only [h, if_true, List.cons_append, List.nil_append]
      simp [parsePattern, ih]
    · have hc : ¬ c = '\\' := by
        intro hcc
        subst hcc
        simp [isMeta] at h
      rw [key]
      simp only [h, if_false, List.cons_append, List.nil_append]
      simp [parsePattern, hc, h, ih]

theorem litMatchAt_iff (s u : Str) :
    litMatchAt (s.map RTok.lit) u = true ↔ List.take s.length u = s := by
  induction s generalizing u with
  | nil => simp [litMatchAt]
  | cons c cs ih =>
    cases u with
    | nil => simp [litMatchAt]
    | cons d ds =>
      simp only [litMatchAt, Bool.and_eq_true, beq_iff_eq, List.length_cons,
        List.take_succ_cons, List.cons.injEq, ih]
      constructor
      · rintro ⟨h1, h2⟩
        exact ⟨h1.symm, h2⟩
      · rintro ⟨h1, h2⟩
        exact ⟨h1.symm, h2⟩

theorem regexTestWW_escape (k s : Str) :
    regexTestWW (escapeRegExp k) s = testWordCI k s := by
  unfold regexTestWW
  rw [parsePattern_escape]
  simp [litOf_map_lit]

theorem regexTestWW_lit (w s : Str) (h : (parsePattern w).bind litOf = some w) :
    regexTestWW w s = testWordCI w s := by
  unfold regexTestWW
  rw [h]

theorem wordAt_append (a rest : Str) :
    wordAt (a ++ rest) a.length = isWordOpt rest.head? := by
  unfold wordAt
  rw [List.getElem?_append_right (le_refl a.length)]
  simp
  cases rest <;> simp

theorem prevW_append (a rest : Str) :
    prevW (a ++ rest) a.length = isWordOpt a.getLast? := by
  cases a with
  | nil => rfl
  | cons x xs =>
    show wordAt ((x :: xs) ++ rest) xs.length = _
    unfold wordAt
    rw [List.getElem?_append_left (by simp)]
    rw [List.getLast?_eq_getElem?]
    simp

theorem boundary_append (a rest : Str) :
    boundaryAt (a ++ rest) a.length = (isWordOpt a.getLast? != isWordOpt rest.head?) := by
  unfold boundaryAt
  rw [wordAt_append, prevW_append]

theorem lowerStr_length (u v : Str) (h : lowerStr u = lowerStr v) : u.length = v.length := by
  have := congrArg List.length h
  simpa [lowerStr] using this

theorem testWordCI_iff_WWOccur (t s : Str) : testWordCI t s = true ↔ WWOccur t s := by
  unfold testWordCI WWOccur
  rw [List.any_eq_true]
  constructor
  · rintro ⟨i, hmem, hcond⟩
    rw [List.mem_range] at hmem
    simp only [Bool.and_eq_true] at hcond
    obtain ⟨⟨hb1, hmB⟩, hb2⟩ := hcond
    unfold matchCIAt at hmB
    rw [beq_iff_eq] at hmB
    set a := List.take i s with ha
    set m := List.take t.length (List.drop i s) with hmdef
    set b := List.drop t.length (List.drop i s) with hbdef
    have hs : s = a ++ m ++ b := by
      rw [List.append_assoc, ha, hmdef, hbdef, List.take_append_drop, List.take_append_drop]
    have hlt : m.length = t.length := lowerStr_length m t hmB
    have hia : a.length = i := by
      rw [ha, List.length_take]
      omega
    refine ⟨a, m, b, hs, hmB, ?_, ?_⟩
    · have e1 : a ++ (m ++ b) = s := by
        rw [← List.append_assoc]
        exact hs.symm
      have hba := boundary_append a (m ++ b)
      rw [e1, hia] at hba
      rw [← bne_iff_ne, ← hba]
      exact hb1
    · have hba := boundary_append (a ++ m) b
      rw [← hs] at hba
      have hlen2 : (a ++ m).length = i + t.length := by
        rw [List.length_append, hia, hlt]
      rw [hlen2] at hba
      rw [← bne_iff_ne, ← hba]
      exact hb2
  · rintro ⟨a, m, b, hs, hmB, g1, g2⟩
    have hlt : m.length = t.length := lowerStr_length m t hmB
    refine ⟨a.length, ?_, ?_⟩
    · rw [List.mem_range]
      have : s.length = a.length + m.length + b.length := by
        rw [hs]
        simp [List.length_append]
        omega
      omega
    · simp only [Bool.and_eq_true]
      refine ⟨⟨?_, ?_⟩, ?_⟩
      · have e1 : a ++ (m ++ b) = s := by
          rw [← List.append_assoc]
          exact hs.symm
        have hba := boundary_append a (m ++ b)
        rw [e1] at hba
        rw [hba, bne_iff_ne]
        exact g1
      · unfold matchCIAt
        rw [beq_iff_eq]
        have hd : List.drop a.length s = m ++ b := by
          rw [hs, List.append_assoc, List.drop_left]
        rw [hd, ← hlt, List.take_left]
        exact hmB
      · have hba := boundary_append (a ++ m) b
        rw [← hs] at hba
        have hlen2 : (a ++ m).length = a.length + t.length := by
          rw [List.length_append, hlt]
        rw [hlen2] at hba
        rw [hba, bne_iff_ne]
        exact g2

/-- C7: the Escaper turns any string s (including the empty string) into a
pattern whose parse is exactly the literal-token spelling of s — so every
regex metacharacter (. * + ? ^ $ curly braces ( ) | [ ] \) occurring in s
is escaped rather than read as an operator — and that literal pattern,
used as a regular expression at any position of any text, matches there
exactly when the substring of length |s| at that position is s itself
(round-trip: against s it matches fully, and nothing other than s ever
matches). -/
theorem C7_escapeRegExp_roundtrip (s : Str) :
    parsePattern (escapeRegExp s) = some (s.map RTok.lit) ∧
    litOf (s.map RTok.lit) = some s ∧
    (∀ text i, litMatchAt (s.map RTok.lit) (List.drop i text) = true
      ↔ List.take s.length (List.drop i text) = s) :=
  ⟨parsePattern_escape s, litOf_map_lit s,
    fun text i => litMatchAt_iff s (List.drop i text)⟩

/-- C8: the Few-Shot transformer with an empty examples list and the
Keyword-Injection transformer with an empty keywords list both return the
prompt unchanged (an absent list reaches the code as the default empty
list, so the same equations cover the absent case). -/
theorem C8_fewShot_inject_identity_on_empty (p : Str) :
    addFewShot p [] = p ∧ injectKeywords p [] = p := by
  constructor <;> rfl

/-- C9: the Tighten transformer with an empty (or absent) constraints list
is not the identity: it always returns the fixed instruction prefix
"Instruction: Be concise and precise.\nUser: " followed by the prompt,
which is never equal to the prompt itself. -/
theorem C9_tighten_not_identity (p : Str) :
    tightenInstructions p []
      = str "Instruction: Be concise and precise.\nUser: " ++ p ∧
    tightenInstructions p [] ≠ p := by
  have hcat : str "Instruction: " ++ str "Be concise and precise.\nUser: "
      = str "Instruction: Be concise and precise.\nUser: " := by decide
  have h1 : tightenInstructions p []
      = str "Instruction: Be concise and precise.\nUser: " ++ p := by
    show str "Instruction: " ++ [] ++ str "Be concise and precise.\nUser: " ++ p = _
    rw [List.append_nil, ← hcat, List.append_assoc]
  refine ⟨h1, ?_⟩
  intro heq
  rw [h1] at heq
  have hlen := congrArg List.length heq
  have hl : (str "Instruction: Be concise and precise.\nUser: ").length = 43 := by decide
  rw [List.length_append, hl] at hlen
  omega

theorem mathRound_ofNat (a b : Nat) :
    mathRound (a : Int) (b : Int) = (((2 * a + b) / (2 * b) : Nat) : Int) := by
  unfold mathRound
  rw [Int.ofNat_fdiv]
  congr 1

theorem rint_le (r : ℚ) : (rint r : ℚ) ≤ r + 1 / 2 := by
  unfold rint
  have hfl : (⌊r⌋ : ℚ) ≤ r := Int.floor_le r
  split_ifs with h1 h2 h3
  · linarith
  · push_cast
    linarith
  · linarith
  · push_cast
    have htie : r - (⌊r⌋ : ℚ) = 1 / 2 := le_antisymm (not_lt.mp h2) (not_lt.mp h1)
    linarith

theorem rint_nonneg (r : ℚ) (hr : 0 ≤ r) : 0 ≤ rint r := by
  unfold rint
  have h0 : (0 : ℤ) ≤ ⌊r⌋ := Int.le_floor.mpr (by exact_mod_cast hr)
  split_ifs <;> omega

theorem zpow_sub_le_div (x y n d : Nat) (hd : 0 < d)
    (h : d * 2 ^ x ≤ n * 2 ^ y) :
    (2 : ℚ) ^ ((x : ℤ) - (y : ℤ)) ≤ (n : ℚ) / (d : ℚ) := by
  have h2 : (2 : ℚ) ≠ 0 := by norm_num
  rw [zpow_sub₀ h2, zpow_natCast, zpow_natCast,
    div_le_div_iff₀ (by positivity) (by exact_mod_cast hd)]
  have hq : ((d * 2 ^ x : ℕ) : ℚ) ≤ ((n * 2 ^ y : ℕ) : ℚ) := by exact_mod_cast h
  push_cast at hq
  linarith

theorem qlog2_le (q : ℚ) (hq : 0 < q) : (2 : ℚ) ^ qlog2 q ≤ q := by
  have hnum : 0 < q.num := Rat.num_pos.mpr hq
  have hden : 0 < q.den := q.den_pos
  have hnumNat : 0 < q.num.toNat := by omega
  have hcastNum : ((q.num.toNat : ℤ)) = q.num := Int.toNat_of_nonneg hnum.le
  have hq_eq : ((q.num.toNat : ℚ)) / ((q.den : ℕ) : ℚ) = q := by
    have : ((q.num.toNat : ℚ)) = ((q.num : ℤ) : ℚ) := by exact_mod_cast hcastNum
    rw [this]
    exact Rat.num_div_den q
  unfold qlog2
  set a := Nat.log 2 q.num.toNat with ha
  set b := Nat.log 2 q.den with hb
  split_ifs with hcond
  · have := zpow_sub_le_div a b q.num.toNat q.den hden hcond
    rw [hq_eq] at this
    exact this
  · have hA : 2 ^ a ≤ q.num.toNat := Nat.pow_log_le_self 2 (by omega)
    have hB : q.den < 2 ^ (b + 1) := Nat.lt_pow_succ_log_self (by norm_num) _
    have hcond2 : q.den * 2 ^ a ≤ q.num.toNat * 2 ^ (b + 1) := by
      calc q.den * 2 ^ a ≤ 2 ^ (b + 1) * 2 ^ a := Nat.mul_le_mul_right _ hB.le
        _ = 2 ^ a * 2 ^ (b + 1) := Nat.mul_comm _ _
        _ ≤ q.num.toNat * 2 ^ (b + 1) := Nat.mul_le_mul_right _ hA
    have := zpow_sub_le_div a (b + 1) q.num.toNat q.den hden hcond2
    rw [hq_eq] at this
    have hexp : ((a : ℤ) - ((b + 1 : ℕ) : ℤ)) = (a : ℤ) - (b : ℤ) - 1 := by
      push_cast
      ring
    rw [hexp] at this
    exact this

theorem rnePos_le (q : ℚ) (hq : 0 < q) : rnePos q ≤ q + q / 2 ^ 53 := by
  unfold rnePos
  set L := qlog2 q with hL
  have h2 : (2 : ℚ) ≠ 0 := by norm_num
  have hpow : (0 : ℚ) < (2 : ℚ) ^ (L - 52) := zpow_pos (by norm_num) _
  have hrint := rint_le (q * 2 ^ ((52 : ℤ) - L))
  have step := mul_le_mul_of_nonneg_right hrint hpow.le
  have hcancel : (2 : ℚ) ^ ((52 : ℤ) - L) * 2 ^ (L - 52) = 1 := by
    rw [← zpow_add₀ h2]
    norm_num
  have hq' : q * 2 ^ ((52 : ℤ) - L) * 2 ^ (L - 52) = q := by
    rw [mul_assoc, hcancel, mul_one]
  have hcollapse : (q * 2 ^ ((52 : ℤ) - L) + 1 / 2) * 2 ^ (L - 52)
      = q + 2 ^ (L - 52) / 2 := by
    calc (q * 2 ^ ((52 : ℤ) - L) + 1 / 2) * 2 ^ (L - 52)
        = q * 2 ^ ((52 : ℤ) - L) * 2 ^ (L - 52) + 2 ^ (L - 52) / 2 := by ring
      _ = q + 2 ^ (L - 52) / 2 := by rw [hq']
  have hKL : (2 : ℚ) ^ L ≤ q := qlog2_le q hq
  have hsplit : (2 : ℚ) ^ (L - 52) / 2 = 2 ^ L / 2 ^ (53 : ℕ) := by
    rw [zpow_sub₀ h2, div_div]
    congr 1
    rw [show ((52 : ℤ)) = ((52 : ℕ) : ℤ) from rfl, zpow_natCast, ← pow_succ]
  have hlast : (2 : ℚ) ^ (L - 52) / 2 ≤ q / 2 ^ (53 : ℕ) := by
    rw [hsplit]
    gcongr
  calc (rint (q * 2 ^ ((52 : ℤ) - L)) : ℚ) * 2 ^ (L - 52)
      ≤ (q * 2 ^ ((52 : ℤ) - L) + 1 / 2) * 2 ^ (L - 52) := step
    _ = q + 2 ^ (L - 52) / 2 := hcollapse
    _ ≤ q + q / 2 ^ 53 := by linarith

theorem rne_nonneg (q : ℚ) (hq : 0 ≤ q) : 0 ≤ rne q := by
  rcases eq_or_lt_of_le hq with h | h
  · simp [rne, ← h]
  · unfold rne
    rw [if_pos h]
    unfold rnePos
    have h1 : 0 ≤ q * 2 ^ ((52 : ℤ) - qlog2 q) := by positivity
    have h2 : (0 : ℤ) ≤ rint (q * 2 ^ ((52 : ℤ) - qlog2 q)) := rint_nonneg _ h1
    exact mul_nonneg (by exact_mod_cast h2) (zpow_pos (by norm_num) _).le

theorem rne_le (q : ℚ) (hq : 0 ≤ q) : rne q ≤ q + q / 2 ^ 53 := by
  rcases eq_or_lt_of_le hq with h | h
  · simp [rne, ← h]
  · unfold rne
    rw [if_pos h]
    exact rnePos_le q h

theorem jsPct_bounds (f t : Nat) (hf : f ≤ t) (ht : 0 < t) :
    0 ≤ jsPct f t ∧ jsPct f t ≤ 100 := by
  have ht' : (0 : ℚ) < (t : ℚ) := by exact_mod_cast ht
  have h0 : (0 : ℚ) ≤ (f : ℚ) / (t : ℚ) := by positivity
  have h1 : (f : ℚ) / (t : ℚ) ≤ 1 := by
    rw [div_le_one ht']
    exact_mod_cast hf
  have hx0 : 0 ≤ rne ((f : ℚ) / (t : ℚ)) := rne_nonneg _ h0
  have hx1 : rne ((f : ℚ) / (t : ℚ)) ≤ 1 + 1 / 2 ^ 53 := by
    have hb := rne_le ((f : ℚ) / (t : ℚ)) h0
    have hmono : (f : ℚ) / (t : ℚ) / 2 ^ 53 ≤ 1 / 2 ^ 53 := by gcongr
    linarith
  have hq0 : (0 : ℚ) ≤ rne ((f : ℚ) / (t : ℚ)) * 100 := by positivity
  have hq1 : rne ((f : ℚ) / (t : ℚ)) * 100 ≤ 100 + 100 / 2 ^ 53 := by linarith
  have hy0 : 0 ≤ rne (rne ((f : ℚ) / (t : ℚ)) * 100) := rne_nonneg _ hq0
  have hy1 : rne (rne ((f : ℚ) / (t : ℚ)) * 100)
      ≤ 100 + 100 / 2 ^ 53 + (100 + 100 / 2 ^ 53) / 2 ^ 53 := by
    have hb := rne_le _ hq0
    have hmono : rne ((f : ℚ) / (t : ℚ)) * 100 / 2 ^ 53
        ≤ (100 + 100 / 2 ^ 53) / 2 ^ 53 := by gcongr
    linarith
  have hsmall : (100 : ℚ) + 100 / 2 ^ 53 + (100 + 100 / 2 ^ 53) / 2 ^ 53 + 1 / 2 < 101 := by
    norm_num
  constructor
  · unfold jsPct
    exact Int.le_floor.mpr (by push_cast; linarith)
  · unfold jsPct
    have hflt : ⌊rne (rne ((f : ℚ) / (t : ℚ)) * 100) + 1 / 2⌋ < 101 := by
      apply Int.floor_lt.mpr
      push_cast
      linarith
    omega

theorem mathRound4_bounds (x : Int) (h0 : 0 ≤ x) (h4 : x ≤ 400) :
    0 ≤ mathRound x 4 ∧ mathRound x 4 ≤ 100 := by
  obtain ⟨n, rfl⟩ := Int.eq_ofNat_of_zero_le h0
  have h4n : n ≤ 400 := by exact_mod_cast h4
  have hrw : mathRound (n : Int) ((4 : Nat) : Int) = (((2 * n + 4) / (2 * 4) : Nat) : Int) :=
    mathRound_ofNat n 4
  have hcast : ((4 : Nat) : Int) = (4 : Int) := by norm_num
  rw [hcast] at hrw
  rw [hrw]
  refine ⟨Int.ofNat_nonneg _, ?_⟩
  have hle : (2 * n + 4) / (2 * 4) ≤ 100 := by omega
  exact_mod_cast hle

theorem clarityScore_bounds (len : Nat) :
    10 ≤ clarityScore len ∧ clarityScore len ≤ 100 := by
  unfold clarityScore
  exact ⟨le_max_left _ _, max_le (by norm_num) (min_le_left _ _)⟩

theorem specificityScore_bounds (p : Str) :
    20 ≤ specificityScore p ∧ specificityScore p ≤ 100 := by
  unfold specificityScore
  refine ⟨le_min (by norm_num) ?_, min_le_left _ _⟩
  have hc : (0 : Int) ≤ (List.countP (fun w => regexTestWW w p) specificityWords : Int) :=
    Int.ofNat_nonneg _
  omega

theorem keywordCoverageScore_bounds (p : Str) (ks : List Str) :
    0 ≤ keywordCoverageScore p ks ∧ keywordCoverageScore p ks ≤ 100 := by
  unfold keywordCoverageScore
  by_cases h : ks.length = 0
  · simp [h]
  · simp only [h, if_false]
    exact jsPct_bounds (foundKeywordsOf p ks).length ks.length
      (List.length_filter_le _ _) (Nat.pos_of_ne_zero h)

theorem testScoreOf_bounds (p : Str) (tcs : List TestCase) :
    0 ≤ testScoreOf p tcs ∧ testScoreOf p tcs ≤ 100 := by
  unfold testScoreOf
  by_cases h : tcs.length = 0
  · simp [h]
  · simp only [h, if_false]
    exact jsPct_bounds (List.countP (testCasePasses p) tcs) tcs.length
      (List.countP_le_length _) (Nat.pos_of_ne_zero h)

theorem evaluatePrompt_clarity (p : Str) (ks : List Str) (tcs : List TestCase) :
    (evaluatePrompt p ks tcs).clarity = clarityScore p.length := rfl

theorem evaluatePrompt_specificity (p : Str) (ks : List Str) (tcs : List TestCase) :
    (evaluatePrompt p ks tcs).specificity = specificityScore p := rfl

theorem evaluatePrompt_keywordCoverage (p : Str) (ks : List Str) (tcs : List TestCase) :
    (evaluatePrompt p ks tcs).keywordCoverage = keywordCoverageScore p ks := rfl

theorem evaluatePrompt_testScore (p : Str) (ks : List Str) (tcs : List TestCase) :
    (evaluatePrompt p ks tcs).testScore = testScoreOf p tcs := rfl

theorem evaluatePrompt_overall (p : Str) (ks : List Str) (tcs : List TestCase) :
    (evaluatePrompt p ks tcs).overall
      = mathRound (clarityScore p.length + specificityScore p
          + keywordCoverageScore p ks + testScoreOf p tcs) 4 := rfl

theorem evaluatePrompt_foundKeywords (p : Str) (ks : List Str) (tcs : List TestCase) :
    (evaluatePrompt p ks tcs).foundKeywords = foundKeywordsOf p ks := rfl

/-- C1: for every prompt string and all (possibly empty) keyword and
test-case lists, each of the five score fields of the Evaluation returned
by evaluatePrompt is an integer in [0, 100], and overall equals
Math.round of the arithmetic mean of the four sub-scores. -/
theorem C1_evaluatePrompt_bounds_and_mean (p : Str) (ks : List Str) (tcs : List TestCase) :
    (0 ≤ (evaluatePrompt p ks tcs).clarity ∧ (evaluatePrompt p ks tcs).clarity ≤ 100) ∧
    (0 ≤ (evaluatePrompt p ks tcs).specificity ∧ (evaluatePrompt p ks tcs).specificity ≤ 100) ∧
    (0 ≤ (evaluatePrompt p ks tcs).keywordCoverage ∧
      (evaluatePrompt p ks tcs).keywordCoverage ≤ 100) ∧
    (0 ≤ (evaluatePrompt p ks tcs).testScore ∧ (evaluatePrompt p ks tcs).testScore ≤ 100) ∧
    (0 ≤ (evaluatePrompt p ks tcs).overall ∧ (evaluatePrompt p ks tcs).overall ≤ 100) ∧
    (evaluatePrompt p ks tcs).overall
      = mathRound ((evaluatePrompt p ks tcs).clarity + (evaluatePrompt p ks tcs).specificity
          + (evaluatePrompt p ks tcs).keywordCoverage + (evaluatePrompt p ks tcs).testScore) 4 := by
  have hc := clarityScore_bounds p.length
  have hs := specificityScore_bounds p
  have hk := keywordCoverageScore_bounds p ks
  have ht := testScoreOf_bounds p tcs
  have hov := mathRound4_bounds
    (clarityScore p.length + specificityScore p + keywordCoverageScore p ks + testScoreOf p tcs)
    (by linarith [hc.1, hs.1, hk.1, ht.1]) (by linarith [hc.2, hs.2, hk.2, ht.2])
  simp only [evaluatePrompt_clarity, evaluatePrompt_specificity,
    evaluatePrompt_keywordCoverage, evaluatePrompt_testScore, evaluatePrompt_overall]
  exact ⟨⟨by linarith [hc.1], hc.2⟩, ⟨by linarith [hs.1], hs.2⟩, hk, ht, hov, trivial⟩

/-- C2: for every non-empty base prompt and any keyword, example and
constraint lists, generateVariations returns exactly the five Variants, in
the fixed order system-role:expert, few-shot, tight-constraints,
paraphrase, keyword-injection; each Variant's prompt is the corresponding
transformer applied once to the same base prompt with its relevant extra
input, and each Variant's evaluation is evaluatePrompt on that Variant's
own prompt with the caller's keywords and an empty test-case list. -/
theorem C2_generateVariations_five_fixed (f : Nat → Str) (c : Char) (r : Str)
    (ks : List Str) (exs : List Example) (cs : List Str) :
    generateVariations f (some (c :: r)) ks exs cs = Except.ok
      [⟨f 0, str "system-role:expert", addSystemRole (c :: r) expertRole,
          evaluatePrompt (addSystemRole (c :: r) expertRole) ks []⟩,
       ⟨f 1, str "few-shot", addFewShot (c :: r) exs,
          evaluatePrompt (addFewShot (c :: r) exs) ks []⟩,
       ⟨f 2, str "tight-constraints", tightenInstructions (c :: r) cs,
          evaluatePrompt (tightenInstructions (c :: r) cs) ks []⟩,
       ⟨f 3, str "paraphrase", paraphrasePrompt (c :: r),
          evaluatePrompt (paraphrasePrompt (c :: r)) ks []⟩,
       ⟨f 4, str "keyword-injection", injectKeywords (c :: r) ks,
          evaluatePrompt (injectKeywords (c :: r) ks) ks []⟩] := rfl

/-- C3: generateVariations fails with the basePrompt-required input error,
returning no Variant at all, both when basePrompt is absent and when it is
the empty string. -/
theorem C3_generateVariations_rejects_missing (f : Nat → Str)
    (ks : List Str) (exs : List Example) (cs : List Str) :
    generateVariations f none ks exs cs = Except.error (str "basePrompt required") ∧
    generateVariations f (some []) ks exs cs = Except.error (str "basePrompt required") :=
  ⟨rfl, rfl⟩

/-- C4 counterexample: contrary to the claim, the evaluate endpoint does
not accept the empty prompt string: `!prompt` is true for the empty
string, so the endpoint answers the missing-prompt error, not an
Evaluation. -/
theorem C4_counterexample_empty_prompt_rejected :
    evaluateEndpoint (some []) [] [] = Except.error (str "prompt required") := rfl

/-- C4 (amended): the evaluate endpoint rejects an absent prompt and the
empty prompt alike with the missing-prompt error, and accepts every
non-empty prompt, returning it with its evaluatePrompt Evaluation. -/
theorem C4_evaluateEndpoint_amended (c : Char) (r : Str) (ks : List Str) (tcs : List TestCase) :
    evaluateEndpoint none ks tcs = Except.error (str "prompt required") ∧
    evaluateEndpoint (some []) ks tcs = Except.error (str "prompt required") ∧
    evaluateEndpoint (some (c :: r)) ks tcs
      = Except.ok (c :: r, evaluatePrompt (c :: r) ks tcs) :=
  ⟨rfl, rfl, rfl⟩

theorem all_congr_str (l : List Str) (f g : Str → Bool) (h : ∀ x ∈ l, f x = g x) :
    l.all f = l.all g := by
  induction l with
  | nil => rfl
  | cons a rest ih =>
    simp only [List.all_cons]
    rw [h a (List.mem_cons_self a rest), ih (fun x hx => h x (List.mem_cons_of_mem a hx))]

/-- C5: all term matching in the Evaluator is whole-word and
case-insensitive.  The keyword filter, the specificity vocabulary count
and the test-case mustInclude check each reduce to the word-boundary
case-insensitive literal test `testWordCI`, and `testWordCI t p` holds
exactly when some case-insensitively matching occurrence of t in p is
bordered by a word/non-word change (or a string edge) on both sides — so
an occurrence lying strictly inside a longer word never counts, as in the
concrete instance: "cat" is not matched inside "category". -/
theorem C5_whole_word_ci_matching (p t : Str) (ks : List Str) (tcs : List TestCase) :
    ((evaluatePrompt p ks tcs).foundKeywords = ks.filter (fun k => testWordCI k p)) ∧
    ((evaluatePrompt p ks tcs).specificity
      = min 100 ((List.countP (fun w => testWordCI w p) specificityWords : Int) * 25 + 20)) ∧
    ((evaluatePrompt p ks tcs).testScore
      = (if tcs.length = 0 then 0
         else jsPct
           (List.countP (fun tc => tc.mustInclude.all (fun r => testWordCI r p)) tcs)
           tcs.length)) ∧
    (testWordCI t p = true ↔ WWOccur t p) ∧
    testWordCI (str "cat") (str "category") = false := by
  refine ⟨?_, ?_, ?_, testWordCI_iff_WWOccur t p, by decide⟩
  · rw [evaluatePrompt_foundKeywords]
    unfold foundKeywordsOf
    exact List.filter_congr (fun k _ => regexTestWW_escape k p)
  · rw [evaluatePrompt_specificity]
    unfold specificityScore
    have hcount : List.countP (fun w => regexTestWW w p) specificityWords
        = List.countP (fun w => testWordCI w p) specificityWords := by
      apply List.countP_congr
      intro w hw
      fin_cases hw <;> rw [regexTestWW_lit _ p (by decide)]
    rw [hcount]
  · rw [evaluatePrompt_testScore]
    unfold testScoreOf
    by_cases h : tcs.length = 0
    · simp [h]
    · simp only [h, if_false]
      have hcount : List.countP (testCasePasses p) tcs
          = List.countP (fun tc => tc.mustInclude.all (fun r => testWordCI r p)) tcs := by
        apply List.countP_congr
        intro tc _
        unfold testCasePasses
        rw [all_congr_str tc.mustInclude _ _ (fun r _ => regexTestWW_escape r p)]
      rw [hcount]

theorem truncate_eq_iff (q : Str) :
    ((if 120 < q.length then List.take 110 q ++ str "..." else q) = q) ↔ q.length ≤ 120 := by
  by_cases h : 120 < q.length
  · simp only [h, if_true]
    constructor
    · intro heq
      have hlen := congrArg List.length heq
      have h3 : (str "...").length = 3 := by decide
      rw [List.length_append, List.length_take, h3] at hlen
      omega
    · intro hle
      omega
  · simp only [h, if_false]
    constructor
    · intro _
      omega
    · intro _
      trivial

/-- C6: paraphrasePrompt is exactly the composition: global whole-word
case-insensitive removal of "please", trim, global whole-word
case-insensitive replacement of "Create" by "Generate" and of "Describe"
by "Summarize", followed by truncation — and the truncation (first 110
characters plus an ellipsis marker) is applied precisely when the string
produced by the replacement steps exceeds 120 characters: the output
equals that string if and only if its length is at most 120. -/
theorem C6_paraphrase_steps (p q : Str)
    (hq : q = replaceWordCI (str "Describe") (str "Summarize")
        (replaceWordCI (str "Create") (str "Generate")
          (jsTrim (replaceWordCI (str "please") [] p)))) :
    paraphrasePrompt p = (if 120 < q.length then List.take 110 q ++ str "..." else q) ∧
    (paraphrasePrompt p = q ↔ q.length ≤ 120) := by
  subst hq
  exact ⟨rfl, truncate_eq_iff _⟩

theorem C6_paraphrase_steps_witness :
    (str "hi" = replaceWordCI (str "Describe") (str "Summarize")
        (replaceWordCI (str "Create") (str "Generate")
          (jsTrim (replaceWordCI (str "please") [] (str "hi"))))) ∧
    (paraphrasePrompt (str "hi")
      = (if 120 < (str "hi").length then List.take 110 (str "hi") ++ str "..." else str "hi")) ∧
    (paraphrasePrompt (str "hi") = str "hi" ↔ (str "hi").length ≤ 120) := by
  refine ⟨by decide, ?_, ?_⟩
  · exact (C6_paraphrase_steps (str "hi") (str "hi") (by decide)).1
  · exact (C6_paraphrase_steps (str "hi") (str "hi") (by decide)).2

theorem wordAt_true_mem (s : Str) (j : Nat) (h : wordAt s j = true) :
    ∃ c ∈ s, isWordChar c = true := by
  unfold wordAt at h
  cases hp : s[j]? with
  | none => rw [hp] at h; simp [isWordOpt] at h
  | some c =>
    rw [hp] at h
    exact ⟨c, List.getElem?_mem hp, h⟩

theorem boundaryAt_exists_iff (s : Str) :
    (∃ i, i ≤ s.length ∧ boundaryAt s i = true) ↔ ∃ c ∈ s, isWordChar c = true := by
  constructor
  · rintro ⟨i, hi, hb⟩
    unfold boundaryAt at hb
    rw [bne_iff_ne] at hb
    cases hw : wordAt s i with
    | true => exact wordAt_true_mem s i hw
    | false =>
      cases i with
      | zero =>
        rw [hw] at hb
        exact absurd rfl hb
      | succ j =>
        have hp : prevW s (j + 1) = true := by
          cases hpv : prevW s (j + 1) with
          | true => rfl
          | false =>
            rw [hw, hpv] at hb
            exact absurd rfl hb
        exact wordAt_true_mem s j hp
  · rintro ⟨c, hc, hw⟩
    have hex : ∃ x ∈ s, isWordChar x = true := ⟨c, hc, hw⟩
    have hlt := List.findIdx_lt_length_of_exists hex
    refine ⟨List.findIdx isWordChar s, by omega, ?_⟩
    unfold boundaryAt
    rw [bne_iff_ne]
    have hword : wordAt s (List.findIdx isWordChar s) = true := by
      unfold wordAt
      rw [List.getElem?_eq_getElem hlt]
      simpa [isWordOpt] using @List.findIdx_getElem Char isWordChar s hlt
    have hprev : prevW s (List.findIdx isWordChar s) = false := by
      cases hj : List.findIdx isWordChar s with
      | zero => rfl
      | succ k =>
        show wordAt s k = false
        have hk : k < List.findIdx isWordChar s := by omega
        have hkl : k < s.length := by omega
        unfold wordAt
        rw [List.getElem?_eq_getElem hkl]
        simpa [isWordOpt] using List.not_of_lt_findIdx hk
    rw [hword, hprev]
    simp

theorem testWordCI_nil_iff (s : Str) :
    testWordCI [] s = true ↔ ∃ c ∈ s, isWordChar c = true := by
  unfold testWordCI
  rw [List.any_eq_true, ← boundaryAt_exists_iff]
  constructor
  · rintro ⟨i, hmem, hcond⟩
    rw [List.mem_range] at hmem
    simp only [Bool.and_eq_true] at hcond
    exact ⟨i, by omega, hcond.1.1⟩
  · rintro ⟨i, hi, hb⟩
    refine ⟨i, by rw [List.mem_range]; omega, ?_⟩
    simp only [Bool.and_eq_true]
    refine ⟨⟨hb, ?_⟩, ?_⟩
    · unfold matchCIAt
      simp [lowerStr]
    · simpa using hb

/-- C10: an empty-string keyword is escaped to the empty pattern, whose
whole-word test degenerates to a bare word-boundary check: when the empty
string is among the keywords, it is counted as found — it appears in
foundKeywords, hence in the keywordCoverage fraction — exactly when the
prompt contains at least one word character, and is not found for prompts
without word characters. -/
theorem C10_empty_keyword (p : Str) (ks : List Str) (tcs : List TestCase)
    (h : ([] : Str) ∈ ks) :
    escapeRegExp ([] : Str) = [] ∧
    (testWordCI [] p = true ↔ ∃ c ∈ p, isWordChar c = true) ∧
    (([] : Str) ∈ (evaluatePrompt p ks tcs).foundKeywords
      ↔ ∃ c ∈ p, isWordChar c = true) := by
  refine ⟨rfl, testWordCI_nil_iff p, ?_⟩
  rw [evaluatePrompt_foundKeywords]
  unfold foundKeywordsOf
  simp only [List.mem_filter]
  constructor
  · rintro ⟨_, htest⟩
    rw [regexTestWW_escape] at htest
    exact (testWordCI_nil_iff p).mp htest
  · intro hex
    refine ⟨h, ?_⟩
    rw [regexTestWW_escape]
    exact (testWordCI_nil_iff p).mpr hex

theorem C10_empty_keyword_witness :
    (([] : Str) ∈ [([] : Str)]) ∧
    (escapeRegExp ([] : Str) = [] ∧
      (testWordCI [] (str "a") = true ↔ ∃ c ∈ str "a", isWordChar c = true) ∧
      (([] : Str) ∈ (evaluatePrompt (str "a") [[]] []).foundKeywords
        ↔ ∃ c ∈ str "a", isWordChar c = true)) :=
  ⟨by decide, C10_empty_keyword (str "a") [[]] [] (by decide)⟩
